import Mathlib

/-!
Verification of the fincheck domain layer: a shallow embedding of the
TypeScript sources (services, controllers and chart/history views) as
executable Lean definitions, together with proofs of the documented
aggregation, validation and referential-integrity properties.

Monetary amounts (`number` in TypeScript) are embedded as `Rat`; ISO
`YYYY-MM-DD` date strings are embedded by their parsed calendar value
(`Date`), and comparisons through JavaScript `Date.getTime()` are
embedded as comparisons of the civil day ordinal `Date.toOrd`.
-/

namespace Fincheck

/-- The `tipo` discriminator of a transaction (`'receita' | 'despesa'`). -/
inductive Tipo where
  | receita
  | despesa
deriving DecidableEq, Repr

/-- Calendar date: the parsed value of an ISO `YYYY-MM-DD` string
(`month` and `day` are 1-based as written in the string). -/
structure Date where
  year : Nat
  month : Nat
  day : Nat
deriving DecidableEq, Repr

/-- Civil day ordinal of a date (days-from-civil style day numbering).
Embeds the ordering that JavaScript `new Date(s).getTime()` induces on
parsed `YYYY-MM-DD` strings. -/
def Date.toOrd (d : Date) : Nat :=
  let y := if d.month ≤ 2 then d.year - 1 else d.year
  let era := y / 400
  let yoe := y - era * 400
  let mp := (d.month + 9) % 12
  let doy := (153 * mp + 2) / 5 + d.day - 1
  let doe := yoe * 365 + yoe / 4 - yoe / 100 + doy
  era * 146097 + doe

/-- `src/src/model/Transaction.ts`: the transaction record.  The `data`
field holds the parsed value of the ISO date string. -/
structure Transaction where
  id : String
  userId : String
  valor : Rat
  data : Date
  categoriaId : String
  descricao : String
  tipo : Tipo
  formaPagamento : String
  recorrente : Bool
  mesesRecorrencia : Option Nat
deriving DecidableEq, Repr

/-- `src/src/model/Category.ts`: the category record. -/
structure Category where
  id : String
  userId : String
  nome : String
  descricao : String
  cor : String
  limiteGasto : Option Rat
deriving DecidableEq, Repr

/-- The `{ success, message }` response shape shared by the controllers. -/
structure BaseResponse where
  success : Bool
  message : String
deriving DecidableEq, Repr

/-- Characters of a string with leading and trailing whitespace
removed (the effect of JavaScript `String.prototype.trim`). -/
def trimChars (cs : List Char) : List Char :=
  ((cs.dropWhile Char.isWhitespace).reverse.dropWhile Char.isWhitespace).reverse

/-- `src/src/utils/validators.ts` `isNotEmpty`: `value.trim().length > 0`. -/
def isNotEmpty (value : String) : Bool :=
  (trimChars value.toList).length > 0

/-! ## TransactionService.calculateBalance -/

/-- Result shape of `TransactionService.calculateBalance`:
`{ receitas, despesas, saldo }`. -/
structure BalanceResult where
  receitas : Rat
  despesas : Rat
  saldo : Rat
deriving DecidableEq, Repr

/-- One step of the `transactions.forEach` loop in
`TransactionService.calculateBalance` (src/src/service/TransactionService.ts,
lines 125-131): add `valor` to `receitas` when `tipo === 'receita'`,
otherwise to `despesas`. -/
def balanceStep (acc : Rat × Rat) (t : Transaction) : Rat × Rat :=
  if t.tipo = Tipo.receita then (acc.1 + t.valor, acc.2) else (acc.1, acc.2 + t.valor)

/-- `TransactionService.calculateBalance` (src/src/service/TransactionService.ts,
lines 118-139), on the transaction list the store returned for the user:
accumulate `receitas` and `despesas` over the list, then
`saldo = receitas - despesas`. -/
def calculateBalance (transactions : List Transaction) : BalanceResult :=
  let p := transactions.foldl balanceStep (0, 0)
  ⟨p.1, p.2, p.1 - p.2⟩

theorem balanceStep_fst_ge (acc : Rat × Rat) (t : Transaction) (h : 0 < t.valor) :
    acc.1 ≤ (balanceStep acc t).1 ∧ acc.2 ≤ (balanceStep acc t).2 := by
  unfold balanceStep
  split <;> constructor <;> simp <;> linarith

theorem balance_foldl_nonneg (ts : List Transaction) :
    ∀ acc : Rat × Rat, (∀ t ∈ ts, 0 < t.valor) →
      acc.1 ≤ (ts.foldl balanceStep acc).1 ∧ acc.2 ≤ (ts.foldl balanceStep acc).2 := by
  induction ts with
  | nil => intro acc _; exact ⟨le_refl _, le_refl _⟩
  | cons t ts ih =>
    intro acc hpos
    have hstep := balanceStep_fst_ge acc t (hpos t (List.mem_cons_self t ts))
    have hrest := ih (balanceStep acc t) (fun u hu => hpos u (List.mem_cons_of_mem t hu))
    simp only [List.foldl_cons]
    exact ⟨le_trans hstep.1 hrest.1, le_trans hstep.2 hrest.2⟩

/-- C1: for every transaction list whose amounts are all positive, the
balance computed by `TransactionService.calculateBalance` satisfies
`saldo = receitas - despesas` with both totals nonnegative, and on the
empty list all three components are `0`. -/
theorem calculateBalance_spec (ts : List Transaction)
    (hpos : ∀ t ∈ ts, 0 < t.valor) :
    (calculateBalance ts).saldo = (calculateBalance ts).receitas - (calculateBalance ts).despesas ∧
    0 ≤ (calculateBalance ts).receitas ∧
    0 ≤ (calculateBalance ts).despesas ∧
    calculateBalance ([] : List Transaction) = ⟨0, 0, 0⟩ := by
  refine ⟨rfl, ?_, ?_, by simp [calculateBalance]⟩
  · exact (balance_foldl_nonneg ts (0, 0) hpos).1
  · exact (balance_foldl_nonneg ts (0, 0) hpos).2

/-- Example transactions from the specification (§8): income 1000 and
expense 300 on category c1. -/
def txIncome1000 : Transaction :=
  ⟨"t1", "u1", 1000, ⟨2024, 1, 5⟩, "c1", "salario mensal", Tipo.receita, "pix", false, none⟩

def txExpense300 : Transaction :=
  ⟨"t2", "u1", 300, ⟨2024, 1, 10⟩, "c1", "compras do mes", Tipo.despesa, "pix", false, none⟩

theorem calculateBalance_spec_witness :
    (calculateBalance [txIncome1000, txExpense300]).saldo =
      (calculateBalance [txIncome1000, txExpense300]).receitas -
        (calculateBalance [txIncome1000, txExpense300]).despesas ∧
    0 ≤ (calculateBalance [txIncome1000, txExpense300]).receitas ∧
    0 ≤ (calculateBalance [txIncome1000, txExpense300]).despesas ∧
    calculateBalance ([] : List Transaction) = ⟨0, 0, 0⟩ :=
  calculateBalance_spec [txIncome1000, txExpense300] (by decide)

/-! ## CategoryController.deleteCategory and the referential guard -/

/-- `CategoryController.checkCategoryHasTransactions`
(src/src/controller/CategoryController.ts, lines 207-215): fetch the
user's transactions and test `transactions.some(t => t.categoriaId ===
categoryId)`.  The argument is the outcome of
`TransactionService.getTransactionsByUser`: `.ok` with the stored list,
or `.error` when the store read throws.  The `catch` branch logs and
returns `false`. -/
def checkCategoryHasTransactions (fetch : Except String (List Transaction))
    (categoryId : String) : Bool :=
  match fetch with
  | Except.ok transactions => transactions.any (fun t => t.categoriaId == categoryId)
  | Except.error _ => false

/-- Failure message of the referential guard in
`CategoryController.deleteCategory` (the `CategoryInUse` outcome). -/
def categoryInUseMessage : String :=
  "Não é possível deletar categoria com transações associadas. Delete as transações primeiro."

/-- `CategoryController.deleteCategory`
(src/src/controller/CategoryController.ts, lines 357-396) on a user
state whose stored categories are `cats`: reject an empty id, then
consult `checkCategoryHasTransactions`; on `true` fail with the
in-use message leaving the store unchanged, otherwise remove the
category via `CategoryService.deleteCategory` (store delete assumed to
succeed) and report success.  Returns the response and the categories
stored afterwards. -/
def deleteCategory (fetch : Except String (List Transaction))
    (cats : List Category) (categoryId : String) : BaseResponse × List Category :=
  if categoryId = "" then
    (⟨false, "ID da categoria é obrigatório"⟩, cats)
  else if checkCategoryHasTransactions fetch categoryId then
    (⟨false, categoryInUseMessage⟩, cats)
  else
    (⟨true, "Categoria deletada com sucesso!"⟩, cats.filter (fun c => c.id ≠ categoryId))

/-- C2: when the transaction fetch succeeds, deleting a stored category
that some transaction references fails with the `CategoryInUse` message
and the category remains stored, while deleting one with zero
referencing transactions succeeds. -/
theorem deleteCategory_guard (ts : List Transaction) (cats : List Category)
    (c : Category) (hc : c ∈ cats) (hid : c.id ≠ "") :
    ((∃ t ∈ ts, t.categoriaId = c.id) →
      deleteCategory (Except.ok ts) cats c.id = (⟨false, categoryInUseMessage⟩, cats) ∧
      c ∈ (deleteCategory (Except.ok ts) cats c.id).2) ∧
    ((∀ t ∈ ts, t.categoriaId ≠ c.id) →
      (deleteCategory (Except.ok ts) cats c.id).1.success = true) := by
  constructor
  · rintro ⟨t, ht, href⟩
    have hcheck : checkCategoryHasTransactions (Except.ok ts) c.id = true := by
      simp only [checkCategoryHasTransactions, List.any_eq_true]
      exact ⟨t, ht, by simp [href]⟩
    have : deleteCategory (Except.ok ts) cats c.id = (⟨false, categoryInUseMessage⟩, cats) := by
      simp [deleteCategory, hid, hcheck]
    exact ⟨this, by rw [this]; exact hc⟩
  · intro hnone
    have hcheck : checkCategoryHasTransactions (Except.ok ts) c.id = false := by
      simp only [checkCategoryHasTransactions, List.any_eq_false]
      intro t ht
      simp [hnone t ht]
    simp [deleteCategory, hid, hcheck]

/-- Concrete category used by the witnesses below. -/
def catC1 : Category :=
  ⟨"c1", "u1", "Salário", "Salário e rendimentos do trabalho", "#22c55e", none⟩

theorem deleteCategory_guard_witness :
    (deleteCategory (Except.ok [txIncome1000]) [catC1] catC1.id =
        (⟨false, categoryInUseMessage⟩, [catC1]) ∧
      catC1 ∈ (deleteCategory (Except.ok [txIncome1000]) [catC1] catC1.id).2) ∧
    (deleteCategory (Except.ok []) [catC1] catC1.id).1.success = true :=
  ⟨(deleteCategory_guard [txIncome1000] [catC1] catC1 (by decide) (by decide)).1
      ⟨txIncome1000, by decide, by decide⟩,
    (deleteCategory_guard [] [catC1] catC1 (by decide) (by decide)).2 (by decide)⟩

/-- C10: when the transaction fetch throws, the referencing-transactions
check reports `false`, so `deleteCategory` proceeds as though the
category had zero referencing transactions: it reports success and the
category is removed from the store — the referential guard is silently
bypassed on a store read error. -/
theorem deleteCategory_guard_bypassed_on_fetch_error (e : String)
    (cats : List Category) (categoryId : String) (hid : categoryId ≠ "") :
    checkCategoryHasTransactions (Except.error e) categoryId = false ∧
    (deleteCategory (Except.error e) cats categoryId).1.success = true ∧
    (deleteCategory (Except.error e) cats categoryId).2 =
      cats.filter (fun c => c.id ≠ categoryId) := by
  refine ⟨rfl, ?_, ?_⟩ <;> simp [deleteCategory, checkCategoryHasTransactions, hid]

theorem deleteCategory_guard_bypassed_on_fetch_error_witness :
    checkCategoryHasTransactions (Except.error "Erro ao buscar transações: timeout") "c1" = false ∧
    (deleteCategory (Except.error "Erro ao buscar transações: timeout") [catC1] "c1").1.success
      = true ∧
    (deleteCategory (Except.error "Erro ao buscar transações: timeout") [catC1] "c1").2 =
      [catC1].filter (fun c => c.id ≠ "c1") :=
  deleteCategory_guard_bypassed_on_fetch_error "Erro ao buscar transações: timeout" [catC1] "c1"
    (by decide)

/-! ## DashboardView.loadDashboardData: category bootstrap before composition -/

/-- Response shape of `CategoryController.getUserCategories`
(`{ success, message, categories? }`). -/
structure CategoriesResponse where
  success : Bool
  message : String
  categories : Option (List Category)
deriving DecidableEq, Repr

/-- The externally visible calls `DashboardView.loadDashboardData`
performs, in order. -/
inductive DashEvent where
  | fetchCategories
  | bootstrapDefaults
  | composeDashboard
deriving DecidableEq, Repr

/-- Guard of the bootstrap call in `DashboardView.loadDashboardData`:
`categoriesResult.success && categoriesResult.categories &&
categoriesResult.categories.length === 0` (an absent `categories` array
is falsy; an empty array is truthy). -/
def shouldBootstrap (r : CategoriesResponse) : Bool :=
  r.success && (match r.categories with
    | some cs => cs.isEmpty
    | none => false)

/-- Call sequence of `DashboardView.loadDashboardData` (the dashboard
composition entry point, src/unnamed DashboardView source): fetch the
user's categories, call `CategoryController.createDefaultCategories`
when the guard holds, then call
`DashboardController.loadDashboardData` to compose the dashboard.
Failures of the bootstrap call are logged and never block the
composition. -/
def loadDashboardDataEvents (categoriesResult : CategoriesResponse) : List DashEvent :=
  [DashEvent.fetchCategories] ++
    (if shouldBootstrap categoriesResult then [DashEvent.bootstrapDefaults] else []) ++
    [DashEvent.composeDashboard]

/-- C9: for an authenticated user whose category fetch succeeds with
zero categories, the dashboard composition triggers the category
bootstrap exactly once, before the dashboard result is composed. -/
theorem loadDashboardData_bootstraps_once (r : CategoriesResponse)
    (hs : r.success = true) (hz : r.categories = some []) :
    loadDashboardDataEvents r =
      [DashEvent.fetchCategories, DashEvent.bootstrapDefaults, DashEvent.composeDashboard] ∧
    (loadDashboardDataEvents r).count DashEvent.bootstrapDefaults = 1 := by
  have hb : shouldBootstrap r = true := by
    simp [shouldBootstrap, hs, hz]
  constructor
  · simp [loadDashboardDataEvents, hb]
  · simp [loadDashboardDataEvents, hb, List.count_cons]

theorem loadDashboardData_bootstraps_once_witness :
    loadDashboardDataEvents ⟨true, "Categorias carregadas com sucesso!", some []⟩ =
      [DashEvent.fetchCategories, DashEvent.bootstrapDefaults, DashEvent.composeDashboard] ∧
    (loadDashboardDataEvents
        ⟨true, "Categorias carregadas com sucesso!", some []⟩).count
      DashEvent.bootstrapDefaults = 1 :=
  loadDashboardData_bootstraps_once ⟨true, "Categorias carregadas com sucesso!", some []⟩
    (by decide) (by decide)

/-! ## TransactionController.validateTransactionData -/

/-- Leap year rule of the Gregorian calendar (as implemented by
JavaScript `Date`). -/
def isLeapYear (y : Nat) : Bool :=
  (y % 4 == 0 && y % 100 != 0) || y % 400 == 0

/-- Number of days of month `m` (1-based) of year `y`. -/
def daysInMonth (y m : Nat) : Nat :=
  if m = 2 then (if isLeapYear y then 29 else 28)
  else if m = 4 ∨ m = 6 ∨ m = 9 ∨ m = 11 then 30
  else 31

/-- Numeric value of a decimal digit character. -/
def digitVal (c : Char) : Option Nat :=
  if c.isDigit then some (c.toNat - '0'.toNat) else none

/-- Parse of an ISO `YYYY-MM-DD` string as JavaScript does it: the
string must match `^\d{4}-\d{2}-\d{2}$` and `new Date(s)` must be a
valid calendar date (month 01-12, day within the month). -/
def parseISODate (s : String) : Option Date :=
  match s.toList with
  | [y1, y2, y3, y4, h1, m1, m2, h2, d1, d2] =>
    if h1 = '-' ∧ h2 = '-' then
      match digitVal y1, digitVal y2, digitVal y3, digitVal y4,
          digitVal m1, digitVal m2, digitVal d1, digitVal d2 with
      | some a, some b, some c, some e, some f, some g, some h, some i =>
        let year := ((a * 10 + b) * 10 + c) * 10 + e
        let month := f * 10 + g
        let day := h * 10 + i
        if 1 ≤ month ∧ month ≤ 12 ∧ 1 ≤ day ∧ day ≤ daysInMonth year month then
          some ⟨year, month, day⟩
        else none
      | _, _, _, _, _, _, _, _ => none
    else none
  | _ => none

/-- `src/src/utils/validators.ts` `isValidDate`: format regex plus
`new Date(date)` validity. -/
def isValidDate (s : String) : Bool :=
  (parseISODate s).isSome

/-- The date value `new Date(data.data)` yields once `isValidDate` has
passed (defaulted on the unreachable invalid branch). -/
def parseDateD (s : String) : Date :=
  (parseISODate s).getD ⟨0, 0, 0⟩

/-- `tenYearsAgo` in `validateTransactionData`:
`new Date(); setFullYear(getFullYear() - 10)`. -/
def tenYearsBefore (d : Date) : Date :=
  ⟨d.year - 10, d.month, d.day⟩

/-- Input shape `CreateTransactionData`
(src/src/controller/TransactionController.ts).  `tipo` is kept as the
raw string the form submits; `data` is the raw ISO date string. -/
structure CreateTransactionData where
  descricao : String
  valor : Rat
  tipo : String
  categoriaId : String
  data : String
  formaPagamento : String
  recorrente : Bool
  mesesRecorrencia : Option Nat
deriving DecidableEq, Repr

/-- The `{ isValid, message }` result of `validateTransactionData`. -/
structure TValidation where
  isValid : Bool
  message : String
deriving DecidableEq, Repr

/-- `TransactionController.validateTransactionData`
(src/src/controller/TransactionController.ts, lines 239-296), create
path (`isUpdate = false`, every block enabled), with "now" injected as
`today`: fail-fast checks on `descricao`, `valor`, `tipo`,
`categoriaId` and `data`, in the source's order, each returning a
single message. -/
def validateTransactionData (today : Date) (d : CreateTransactionData) : TValidation :=
  if !isNotEmpty d.descricao then ⟨false, "Descrição é obrigatória"⟩
  else if d.descricao.length < 3 then ⟨false, "Descrição deve ter pelo menos 3 caracteres"⟩
  else if d.descricao.length > 100 then ⟨false, "Descrição deve ter no máximo 100 caracteres"⟩
  else if d.valor ≤ 0 then ⟨false, "Valor deve ser maior que zero"⟩
  else if d.valor > 1000000 then ⟨false, "Valor deve ser menor que R$ 1.000.000,00"⟩
  else if d.tipo ≠ "receita" ∧ d.tipo ≠ "despesa" then
    ⟨false, "Tipo deve ser \"receita\" ou \"despesa\""⟩
  else if !isNotEmpty d.categoriaId then ⟨false, "Categoria é obrigatória"⟩
  else if !isValidDate d.data then ⟨false, "Data inválida"⟩
  else if (parseDateD d.data).toOrd > today.toOrd then ⟨false, "Data não pode ser futura"⟩
  else if (parseDateD d.data).toOrd < (tenYearsBefore today).toOrd then
    ⟨false, "Data não pode ser anterior a 10 anos"⟩
  else ⟨true, "Dados válidos"⟩

/-- The validation checks of `validateTransactionData` as an ordered
(condition, message) list — the order actually implemented: description
checks, amount bounds, kind, `categoriaId` non-empty, date checks. -/
def transactionChecks (today : Date) (d : CreateTransactionData) : List (Bool × String) :=
  [ (!isNotEmpty d.descricao, "Descrição é obrigatória"),
    (decide (d.descricao.length < 3), "Descrição deve ter pelo menos 3 caracteres"),
    (decide (d.descricao.length > 100), "Descrição deve ter no máximo 100 caracteres"),
    (decide (d.valor ≤ 0), "Valor deve ser maior que zero"),
    (decide (d.valor > 1000000), "Valor deve ser menor que R$ 1.000.000,00"),
    (decide (d.tipo ≠ "receita" ∧ d.tipo ≠ "despesa"), "Tipo deve ser \"receita\" ou \"despesa\""),
    (!isNotEmpty d.categoriaId, "Categoria é obrigatória"),
    (!isValidDate d.data, "Data inválida"),
    (decide ((parseDateD d.data).toOrd > today.toOrd), "Data não pode ser futura"),
    (decide ((parseDateD d.data).toOrd < (tenYearsBefore today).toOrd),
      "Data não pode ser anterior a 10 anos") ]

/-- First failing check wins; with no failing check the input is valid. -/
def firstFailure : List (Bool × String) → TValidation
  | [] => ⟨true, "Dados válidos"⟩
  | (b, m) :: rest => if b then ⟨false, m⟩ else firstFailure rest

/-- A transaction input violating both the `categoriaId` non-empty check
and the amount bound (and nothing else). -/
def txDataBadValorNoCategoria : CreateTransactionData :=
  ⟨"Compra mensal", 0, "receita", "", "2024-01-05", "pix", false, none⟩

/-- C7 counterexample: on an input violating both the amount bound and
the `categoriaId` non-empty check, validation reports the amount
message — the `categoriaId` non-empty check is NOT performed before the
numeric-bound check, contradicting the claimed order. -/
theorem validateTransactionData_order_counterexample :
    validateTransactionData ⟨2026, 10, 12⟩ txDataBadValorNoCategoria =
      ⟨false, "Valor deve ser maior que zero"⟩ ∧
    isNotEmpty txDataBadValorNoCategoria.categoriaId = false ∧
    "Valor deve ser maior que zero" ≠ "Categoria é obrigatória" := by
  refine ⟨?_, by decide, by decide⟩
  decide

/-- C7 (amended): validation is fail-fast, returning exactly the message
of the first violated check in the implemented order — description
(non-empty, then length bounds), amount bounds, kind, `categoriaId`
non-empty, then the date checks; the `categoriaId` non-empty check runs
after the amount and kind checks. -/
theorem validateTransactionData_eq_firstFailure (today : Date) (d : CreateTransactionData) :
    validateTransactionData today d = firstFailure (transactionChecks today d) := by
  simp only [validateTransactionData, transactionChecks, firstFailure,
    decide_eq_true_eq, Bool.not_eq_true']

/-! ## CategoryController.updateCategory and CategoryService.updateCategory -/

/-- The raw JSON object stored for a category under
`categories/{userId}/{categoryId}` in the Realtime Database: every field
may be absent. -/
structure StoredCategory where
  id : Option String
  userId : Option String
  nome : Option String
  descricao : Option String
  cor : Option String
  limiteGasto : Option Rat
deriving DecidableEq, Repr

/-- Input shape `UpdateCategoryData`
(src/src/controller/CategoryController.ts): a partial
`CreateCategoryData` plus the mandatory `id`. -/
structure UpdateCategoryData where
  id : String
  nome : Option String
  cor : Option String
  descricao : Option String
  limiteGasto : Option Rat
deriving DecidableEq, Repr

/-- The `{ isValid, message? }` result of `validateCategoryData`. -/
structure CatValidation where
  isValid : Bool
  message : Option String
deriving DecidableEq, Repr

/-- Hexadecimal digit test of the color regex character class. -/
def isHexDigit (c : Char) : Bool :=
  c.isDigit || (decide ('a' ≤ c) && decide (c ≤ 'f')) || (decide ('A' ≤ c) && decide (c ≤ 'F'))

/-- The color regex `^#([A-Fa-f0-9]{6}|[A-Fa-f0-9]{3})$` of
`validateCategoryData` (and `validators.ts` `isValidHexColor`). -/
def isValidHexColor (cor : String) : Bool :=
  match cor.toList with
  | '#' :: rest => (rest.length == 6 || rest.length == 3) && rest.all isHexDigit
  | _ => false

/-- The `nome` block of `CategoryController.validateCategoryData`
(src/src/controller/CategoryController.ts, lines 115-132): first
failing check's message, if any. -/
def vNomeErr (nome : String) : Option String :=
  if !isNotEmpty nome then some "Nome da categoria é obrigatório"
  else if nome.length < 2 then some "Nome deve ter pelo menos 2 caracteres"
  else if nome.length > 30 then some "Nome deve ter no máximo 30 caracteres"
  else none

/-- The `cor` block of `validateCategoryData` (lines 134-144). -/
def vCorErr (cor : String) : Option String :=
  if !isNotEmpty cor then some "Cor da categoria é obrigatória"
  else if !isValidHexColor cor then some "Cor deve estar no formato hexadecimal (#RRGGBB)"
  else none

/-- The `descricao` block of `validateCategoryData` (lines 146-163). -/
def vDescricaoErr (descricao : String) : Option String :=
  if !isNotEmpty descricao then some "Descrição da categoria é obrigatória"
  else if descricao.length < 3 then some "Descrição deve ter pelo menos 3 caracteres"
  else if descricao.length > 100 then some "Descrição deve ter no máximo 100 caracteres"
  else none

/-- The `limiteGasto` block of `validateCategoryData` (lines 165-176). -/
def vLimiteErr (limite : Rat) : Option String :=
  if limite < 0 then some "Limite de gasto não pode ser negativo"
  else if limite > 1000000 then some "Limite de gasto deve ser menor que R$ 1.000.000,00"
  else none

/-- `CategoryController.validateCategoryData` with `isUpdate = true`:
each block runs only when its field is present in the patch; the first
failing block's message wins. -/
def validateCategoryDataUpd (d : UpdateCategoryData) : CatValidation :=
  match (d.nome.bind vNomeErr) <|> (d.cor.bind vCorErr) <|>
      (d.descricao.bind vDescricaoErr) <|> (d.limiteGasto.bind vLimiteErr) with
  | some m => ⟨false, some m⟩
  | none => ⟨true, none⟩

/-- Lower-casing used by the `toLowerCase()` name comparison. -/
def lowerStr (s : String) : String :=
  ⟨s.toList.map Char.toLower⟩

/-- The category collection of one user as stored:
`categoryId ↦ stored object`. -/
def CatStore : Type :=
  List (String × StoredCategory)

/-- Value at `categories/{userId}/{k}`. -/
def storeFind (store : CatStore) (k : String) : Option StoredCategory :=
  (store.find? (fun kv => kv.1 == k)).map (fun kv => kv.2)

/-- Firebase `set(ref(categories/{userId}/{k}), v)`: REPLACE the node at
`k` with exactly `v` (this is `set`, not `update`: no merge with the
previous value). -/
def storeSet (store : CatStore) (k : String) (v : StoredCategory) : CatStore :=
  match store with
  | [] => [(k, v)]
  | (k', v') :: rest => if k' = k then (k', v) :: rest else (k', v') :: storeSet rest k v

/-- `CategoryController.checkCategoryNameExists`
(src/src/controller/CategoryController.ts, lines 188-199) over the
stored objects: case-insensitive name match excluding `excludeId`. -/
def checkCategoryNameExists (store : CatStore) (nome : String) (excludeId : String) : Bool :=
  store.any (fun kv =>
    kv.2.nome.map lowerStr == some (lowerStr nome) && kv.2.id != some excludeId)

/-- The JSON object `CategoryService.updateCategory` writes: the spread
of `data` itself — exactly the patch fields plus `id`; absent fields are
simply not part of the object (and `userId` never is). -/
def toStoredUpdate (d : UpdateCategoryData) : StoredCategory :=
  ⟨some d.id, none, d.nome, d.descricao, d.cor, d.limiteGasto⟩

/-- `CategoryController.updateCategory`
(src/src/controller/CategoryController.ts, lines 301-349) composed with
`CategoryService.updateCategory` (src/src/service/CategoryService.ts,
lines 75-82, which calls Firebase `set`): validate the present fields,
check name uniqueness when a (truthy) new name is given, then replace
the stored node with the patch object.  Returns the response and the
store afterwards. -/
def updateCategory (store : CatStore) (d : UpdateCategoryData) : BaseResponse × CatStore :=
  if d.id = "" then
    (⟨false, "ID da categoria é obrigatório"⟩, store)
  else if (d.nome.isSome || d.cor.isSome || d.descricao.isSome) &&
      !(validateCategoryDataUpd d).isValid then
    (⟨false, (validateCategoryDataUpd d).message.getD ""⟩, store)
  else if (match d.nome with
      | some n => n ≠ "" && checkCategoryNameExists store n d.id
      | none => false) then
    (⟨false, "Já existe uma categoria com este nome"⟩, store)
  else
    (⟨true, "Categoria atualizada com sucesso!"⟩, storeSet store d.id (toStoredUpdate d))

/-- A fully populated stored category. -/
def storedAlimentacao : StoredCategory :=
  ⟨some "c1", some "u1", some "Alimentação", some "Supermercado, restaurantes e delivery",
    some "#f59e0b", none⟩

/-- A store holding only that category. -/
def catStore0 : CatStore :=
  [("c1", storedAlimentacao)]

/-- A recolor-only patch for category c1. -/
def corOnlyPatch : UpdateCategoryData :=
  ⟨"c1", none, some "#000000", none, none⟩

/-- C8: updating category c1 with a color-only patch succeeds, but the
stored record afterwards is exactly the patch object — `nome`,
`descricao` and even `userId` are gone, because
`CategoryService.updateCategory` writes the partial patch with Firebase
`set` (replace) instead of `update` (merge).  Fields not present in the
patch do NOT retain their previous values. -/
theorem updateCategory_set_drops_unpatched_fields :
    (updateCategory catStore0 corOnlyPatch).1.success = true ∧
    storeFind catStore0 "c1" = some storedAlimentacao ∧
    storedAlimentacao.nome = some "Alimentação" ∧
    storeFind (updateCategory catStore0 corOnlyPatch).2 "c1" =
      some ⟨some "c1", none, none, none, some "#000000", none⟩ := by
  refine ⟨?_, by decide, by decide, ?_⟩ <;> decide

/-! ## ChartView.updateCategoryBreakdown -/

/-- Per-category accumulator `{ income, expense, count }` of
`ChartView.updateCategoryBreakdown`. -/
structure BreakdownAcc where
  income : Rat
  expense : Rat
  count : Nat
deriving DecidableEq, Repr

/-- Body of the `transactions.forEach` in `updateCategoryBreakdown`
applied to one entry: bump the count and add `valor` to `income` or
`expense` according to `tipo`. -/
def breakdownUpd (a : BreakdownAcc) (t : Transaction) : BreakdownAcc :=
  if t.tipo = Tipo.receita then ⟨a.income + t.valor, a.expense, a.count + 1⟩
  else ⟨a.income, a.expense + t.valor, a.count + 1⟩

/-- One `forEach` step over the `categoryData` map (a `Map` keyed by
`categoriaId`, in insertion order): create the zero entry if absent,
then update it. -/
def addBreakdown (m : List (String × BreakdownAcc)) (t : Transaction) :
    List (String × BreakdownAcc) :=
  match m with
  | [] => [(t.categoriaId, breakdownUpd ⟨0, 0, 0⟩ t)]
  | (k, a) :: rest =>
    if k = t.categoriaId then (k, breakdownUpd a t) :: rest
    else (k, a) :: addBreakdown rest t

/-- The `categoryData` map built by `ChartView.updateCategoryBreakdown`
(src/unnamed ChartView source, lines 670-690). -/
def categoryData (ts : List Transaction) : List (String × BreakdownAcc) :=
  ts.foldl addBreakdown []

/-- A row of the breakdown table. -/
structure BreakdownRow where
  name : String
  income : Rat
  expense : Rat
  total : Rat
  count : Nat
deriving DecidableEq, Repr

/-- Row construction in `updateCategoryBreakdown`: resolve the category
name (or the unknown-category label) and derive
`total = income - expense`. -/
def toBreakdownRow (categories : List Category) (kv : String × BreakdownAcc) : BreakdownRow :=
  ⟨(((categories.find? (fun c => c.id == kv.1)).map Category.nome).getD
      "Categoria Desconhecida"),
    kv.2.income, kv.2.expense, kv.2.income - kv.2.expense, kv.2.count⟩

/-- `ChartView.updateCategoryBreakdown` (src/unnamed ChartView source,
lines 670-733): group by `categoriaId`, build the rows, and sort them
descending by `|total|`. -/
def updateCategoryBreakdown (ts : List Transaction) (categories : List Category) :
    List BreakdownRow :=
  List.insertionSort (fun a b => |b.total| ≤ |a.total|)
    ((categoryData ts).map (toBreakdownRow categories))

/-- `ChartView.updateStatistics` total income:
`transactions.filter(t => t.tipo === 'receita').reduce((sum, t) => sum + t.valor, 0)`. -/
def chartTotalIncome (ts : List Transaction) : Rat :=
  (ts.filter (fun t => t.tipo == Tipo.receita)).foldl (fun s t => s + t.valor) 0

/-- `ChartView.updateStatistics` total expenses (the `despesa` filter). -/
def chartTotalExpenses (ts : List Transaction) : Rat :=
  (ts.filter (fun t => t.tipo == Tipo.despesa)).foldl (fun s t => s + t.valor) 0

/-- Sum of the per-category `income` fields of a breakdown map. -/
def sumIncome (m : List (String × BreakdownAcc)) : Rat :=
  (m.map (fun kv => kv.2.income)).sum

/-- Sum of the per-category `expense` fields of a breakdown map. -/
def sumExpense (m : List (String × BreakdownAcc)) : Rat :=
  (m.map (fun kv => kv.2.expense)).sum

theorem sumIncome_addBreakdown (m : List (String × BreakdownAcc)) (t : Transaction) :
    sumIncome (addBreakdown m t) =
      sumIncome m + (if t.tipo = Tipo.receita then t.valor else 0) := by
  induction m with
  | nil =>
    simp only [addBreakdown, sumIncome, breakdownUpd]
    split <;> simp
  | cons kv rest ih =>
    obtain ⟨k, a⟩ := kv
    simp only [addBreakdown]
    split
    · simp only [sumIncome, List.map_cons, List.sum_cons, breakdownUpd]
      split <;> (simp; try ring)
    · simp only [sumIncome, List.map_cons, List.sum_cons] at *
      rw [ih]
      ring

theorem sumExpense_addBreakdown (m : List (String × BreakdownAcc)) (t : Transaction) :
    sumExpense (addBreakdown m t) =
      sumExpense m + (if t.tipo = Tipo.receita then 0 else t.valor) := by
  induction m with
  | nil =>
    simp only [addBreakdown, sumExpense, breakdownUpd]
    split <;> simp
  | cons kv rest ih =>
    obtain ⟨k, a⟩ := kv
    simp only [addBreakdown]
    split
    · simp only [sumExpense, List.map_cons, List.sum_cons, breakdownUpd]
      split <;> (simp; try ring)
    · simp only [sumExpense, List.map_cons, List.sum_cons] at *
      rw [ih]
      ring

theorem sumIncome_foldl (ts : List Transaction) :
    ∀ m, sumIncome (ts.foldl addBreakdown m) =
      sumIncome m + (ts.map (fun t => if t.tipo = Tipo.receita then t.valor else 0)).sum := by
  induction ts with
  | nil => intro m; simp
  | cons t ts ih =>
    intro m
    simp only [List.foldl_cons, List.map_cons, List.sum_cons]
    rw [ih, sumIncome_addBreakdown]
    ring

theorem sumExpense_foldl (ts : List Transaction) :
    ∀ m, sumExpense (ts.foldl addBreakdown m) =
      sumExpense m + (ts.map (fun t => if t.tipo = Tipo.receita then 0 else t.valor)).sum := by
  induction ts with
  | nil => intro m; simp
  | cons t ts ih =>
    intro m
    simp only [List.foldl_cons, List.map_cons, List.sum_cons]
    rw [ih, sumExpense_addBreakdown]
    ring

theorem foldl_add_valor (ts : List Transaction) :
    ∀ c : Rat, ts.foldl (fun s t => s + t.valor) c = c + (ts.map (fun t => t.valor)).sum := by
  induction ts with
  | nil => intro c; simp
  | cons t ts ih => intro c; simp only [List.foldl_cons, List.map_cons, List.sum_cons]; rw [ih]; ring

theorem chartTotalIncome_eq_ite_sum (ts : List Transaction) :
    chartTotalIncome ts =
      (ts.map (fun t => if t.tipo = Tipo.receita then t.valor else 0)).sum := by
  unfold chartTotalIncome
  rw [foldl_add_valor]
  induction ts with
  | nil => simp
  | cons t ts ih =>
    by_cases h : t.tipo = Tipo.receita <;> simp_all [List.filter_cons]

theorem chartTotalExpenses_eq_ite_sum (ts : List Transaction) :
    chartTotalExpenses ts =
      (ts.map (fun t => if t.tipo = Tipo.receita then 0 else t.valor)).sum := by
  unfold chartTotalExpenses
  rw [foldl_add_valor]
  induction ts with
  | nil => simp
  | cons t ts ih =>
    cases ht : t.tipo <;> simp_all [List.filter_cons]

/-- C4: across all groups of the category breakdown, the per-category
income totals sum to the overall income total, and the per-category
expense totals sum to the overall expense total. -/
theorem updateCategoryBreakdown_sums (ts : List Transaction) (categories : List Category) :
    ((updateCategoryBreakdown ts categories).map BreakdownRow.income).sum =
      chartTotalIncome ts ∧
    ((updateCategoryBreakdown ts categories).map BreakdownRow.expense).sum =
      chartTotalExpenses ts := by
  have hperm :
      List.Perm (updateCategoryBreakdown ts categories)
        ((categoryData ts).map (toBreakdownRow categories)) :=
    List.perm_insertionSort _ _
  constructor
  · rw [(hperm.map BreakdownRow.income).sum_eq, List.map_map]
    have : BreakdownRow.income ∘ toBreakdownRow categories = fun kv => kv.2.income := rfl
    rw [this, chartTotalIncome_eq_ite_sum]
    have h := sumIncome_foldl ts []
    simpa [sumIncome, categoryData] using h
  · rw [(hperm.map BreakdownRow.expense).sum_eq, List.map_map]
    have : BreakdownRow.expense ∘ toBreakdownRow categories = fun kv => kv.2.expense := rfl
    rw [this, chartTotalExpenses_eq_ite_sum]
    have h := sumExpense_foldl ts []
    simpa [sumExpense, categoryData] using h

/-! ## HistoryView.processMonthsData -/

/-- Grouping key of `processMonthsData`: `(getFullYear(), getMonth())` of
the transaction date (`getMonth()` is 0-based, hence `month - 1`). -/
def monthKey (t : Transaction) : Nat × Nat :=
  (t.data.year, t.data.month - 1)

/-- One step of the grouping `forEach` in
`HistoryView.processMonthsData` (src/src/view/HistoryView.ts, lines
66-76): push the transaction onto its `(year, month)` bucket of the
insertion-ordered `monthsMap`, creating the bucket if absent. -/
def addToMonthsMap (m : List ((Nat × Nat) × List Transaction)) (t : Transaction) :
    List ((Nat × Nat) × List Transaction) :=
  match m with
  | [] => [(monthKey t, [t])]
  | (k, ts) :: rest =>
    if k = monthKey t then (k, ts ++ [t]) :: rest
    else (k, ts) :: addToMonthsMap rest t

/-- The `monthsMap` of `processMonthsData`. -/
def monthsMap (ts : List Transaction) : List ((Nat × Nat) × List Transaction) :=
  ts.foldl addToMonthsMap []

/-- Month names used by `formatMonthDisplay`. -/
def monthNames : List String :=
  ["JANEIRO", "FEVEREIRO", "MARÇO", "ABRIL", "MAIO", "JUNHO",
    "JULHO", "AGOSTO", "SETEMBRO", "OUTUBRO", "NOVEMBRO", "DEZEMBRO"]

/-- `HistoryView.formatMonthDisplay`: month name and two-digit year. -/
def formatMonthDisplay (year month : Nat) : String :=
  (monthNames.getD month "") ++ "/" ++ (toString year).takeRight 2

/-- One entry of the grouped month list (`MonthData` in
src/src/view/HistoryView.ts). -/
structure MonthData where
  year : Nat
  month : Nat
  displayName : String
  transactions : List Transaction
deriving DecidableEq, Repr

/-- The comparator `(a, b) => b.year - a.year, then b.month - a.month`
of `processMonthsData` as a relation: `a` sorts no later than `b`. -/
def monthDescLe (a b : MonthData) : Prop :=
  b.year < a.year ∨ (a.year = b.year ∧ b.month ≤ a.month)

instance : DecidableRel monthDescLe := fun a b => by
  unfold monthDescLe; infer_instance

instance : IsTotal MonthData monthDescLe where
  total a b := by unfold monthDescLe; omega

instance : IsTrans MonthData monthDescLe where
  trans a b c hab hbc := by
    unfold monthDescLe at *
    rcases hab with h | ⟨h1, h2⟩ <;> rcases hbc with h' | ⟨h1', h2'⟩ <;> omega

/-- `HistoryView.processMonthsData` (src/src/view/HistoryView.ts, lines
62-95): group the transactions by `(year, month)` of their date, build
the `MonthData` entries, and sort them most-recent-month-first. -/
def processMonthsData (ts : List Transaction) : List MonthData :=
  List.insertionSort monthDescLe
    ((monthsMap ts).map (fun kv =>
      ⟨kv.1.1, kv.1.2, formatMonthDisplay kv.1.1 kv.1.2, kv.2⟩))

theorem addToMonthsMap_key_cases (m : List ((Nat × Nat) × List Transaction))
    (t : Transaction) :
    ∀ e ∈ addToMonthsMap m t, e.1 ∈ m.map Prod.fst ∨ e.1 = monthKey t := by
  induction m with
  | nil => intro e he; simp only [addToMonthsMap, List.mem_singleton] at he; simp [he]
  | cons kv rest ih =>
    obtain ⟨k, ts⟩ := kv
    intro e he
    simp only [addToMonthsMap] at he
    split at he
    · rcases List.mem_cons.mp he with h | h
      · subst h; simp
      · exact Or.inl (List.mem_cons_of_mem _ (List.mem_map_of_mem Prod.fst h))
    · rcases List.mem_cons.mp he with h | h
      · subst h; simp
      · rcases ih e h with h' | h'
        · exact Or.inl (by simp at h' ⊢; tauto)
        · exact Or.inr h'

theorem addToMonthsMap_keys_pairwise (m : List ((Nat × Nat) × List Transaction))
    (t : Transaction)
    (h : m.Pairwise (fun a b => a.1 ≠ b.1)) :
    (addToMonthsMap m t).Pairwise (fun a b => a.1 ≠ b.1) := by
  induction m with
  | nil => simp [addToMonthsMap]
  | cons kv rest ih =>
    obtain ⟨k, ts⟩ := kv
    simp only [addToMonthsMap]
    rcases List.pairwise_cons.mp h with ⟨hk, hrest⟩
    split
    · exact List.pairwise_cons.mpr ⟨fun e he => hk e he, hrest⟩
    · refine List.pairwise_cons.mpr ⟨?_, ih hrest⟩
      intro e he
      rcases addToMonthsMap_key_cases rest t e he with h' | h'
      · rcases List.mem_map.mp h' with ⟨e', he', hfst⟩
        rw [← hfst]
        exact hk e' he'
      · rw [h']
        intro hkk
        exact absurd hkk (by assumption)

theorem addToMonthsMap_member_key (m : List ((Nat × Nat) × List Transaction))
    (t : Transaction)
    (h : ∀ e ∈ m, ∀ u ∈ e.2, monthKey u = e.1) :
    ∀ e ∈ addToMonthsMap m t, ∀ u ∈ e.2, monthKey u = e.1 := by
  induction m with
  | nil =>
    intro e he u hu
    simp only [addToMonthsMap, List.mem_singleton] at he
    subst he
    simp only [List.mem_singleton] at hu
    simp [hu]
  | cons kv rest ih =>
    obtain ⟨k, ts⟩ := kv
    intro e he u hu
    simp only [addToMonthsMap] at he
    split at he
    · rename_i hk
      rcases List.mem_cons.mp he with h' | h'
      · subst h'
        simp only [List.mem_append, List.mem_singleton] at hu
        rcases hu with hu | hu
        · exact h (k, ts) (List.mem_cons_self _ _) u hu
        · subst hu; simp [hk]
      · exact h e (List.mem_cons_of_mem _ h') u hu
    · rcases List.mem_cons.mp he with h' | h'
      · subst h'
        exact h (k, ts) (List.mem_cons_self _ _) u hu
      · exact ih (fun e' he' => h e' (List.mem_cons_of_mem _ he')) e h' u hu

theorem addToMonthsMap_mem_preserved (m : List ((Nat × Nat) × List Transaction))
    (t u : Transaction) (e : (Nat × Nat) × List Transaction)
    (he : e ∈ m) (hu : u ∈ e.2) :
    ∃ e' ∈ addToMonthsMap m t, u ∈ e'.2 := by
  induction m with
  | nil => cases he
  | cons kv rest ih =>
    obtain ⟨k, ts⟩ := kv
    simp only [addToMonthsMap]
    split
    · rcases List.mem_cons.mp he with h' | h'
      · subst h'
        exact ⟨(k, ts ++ [t]), List.mem_cons_self _ _, by simp at hu ⊢; tauto⟩
      · exact ⟨e, List.mem_cons_of_mem _ h', hu⟩
    · rcases List.mem_cons.mp he with h' | h'
      · subst h'
        exact ⟨(k, ts), List.mem_cons_self _ _, hu⟩
      · rcases ih h' with ⟨e', he', hu'⟩
        exact ⟨e', List.mem_cons_of_mem _ he', hu'⟩

theorem addToMonthsMap_mem_self (m : List ((Nat × Nat) × List Transaction))
    (t : Transaction) :
    ∃ e ∈ addToMonthsMap m t, t ∈ e.2 := by
  induction m with
  | nil => exact ⟨(monthKey t, [t]), by simp [addToMonthsMap]⟩
  | cons kv rest ih =>
    obtain ⟨k, ts⟩ := kv
    simp only [addToMonthsMap]
    split
    · exact ⟨(k, ts ++ [t]), List.mem_cons_self _ _, by simp⟩
    · rcases ih with ⟨e, he, ht⟩
      exact ⟨e, List.mem_cons_of_mem _ he, ht⟩

theorem addToMonthsMap_mem_source (m : List ((Nat × Nat) × List Transaction))
    (t u : Transaction) (e : (Nat × Nat) × List Transaction)
    (he : e ∈ addToMonthsMap m t) (hu : u ∈ e.2) :
    (∃ e' ∈ m, u ∈ e'.2) ∨ u = t := by
  induction m with
  | nil =>
    simp only [addToMonthsMap, List.mem_singleton] at he
    subst he
    simp only [List.mem_singleton] at hu
    exact Or.inr hu
  | cons kv rest ih =>
    obtain ⟨k, ts⟩ := kv
    simp only [addToMonthsMap] at he
    split at he
    · rcases List.mem_cons.mp he with h' | h'
      · subst h'
        simp only [List.mem_append, List.mem_singleton] at hu
        rcases hu with hu | hu
        · exact Or.inl ⟨(k, ts), List.mem_cons_self _ _, hu⟩
        · exact Or.inr hu
      · exact Or.inl ⟨e, List.mem_cons_of_mem _ h', hu⟩
    · rcases List.mem_cons.mp he with h' | h'
      · subst h'
        exact Or.inl ⟨(k, ts), List.mem_cons_self _ _, hu⟩
      · rcases ih h' with ⟨e', he', hu'⟩ | h''
        · exact Or.inl ⟨e', List.mem_cons_of_mem _ he', hu'⟩
        · exact Or.inr h''

/-- Combined invariants of the grouping fold. -/
theorem monthsMap_foldl_inv (ts : List Transaction) :
    ∀ m, m.Pairwise (fun a b => a.1 ≠ b.1) →
      (∀ e ∈ m, ∀ u ∈ e.2, monthKey u = e.1) →
      (ts.foldl addToMonthsMap m).Pairwise (fun a b => a.1 ≠ b.1) ∧
      (∀ e ∈ ts.foldl addToMonthsMap m, ∀ u ∈ e.2, monthKey u = e.1) := by
  induction ts with
  | nil => intro m h1 h2; exact ⟨h1, h2⟩
  | cons t ts ih =>
    intro m h1 h2
    exact ih (addToMonthsMap m t) (addToMonthsMap_keys_pairwise m t h1)
      (addToMonthsMap_member_key m t h2)

theorem monthsMap_foldl_mem (ts : List Transaction) :
    ∀ m u, ((∃ e ∈ m, u ∈ e.2) ∨ u ∈ ts) →
      ∃ e ∈ ts.foldl addToMonthsMap m, u ∈ e.2 := by
  induction ts with
  | nil =>
    intro m u h
    rcases h with h | h
    · exact h
    · cases h
  | cons t ts ih =>
    intro m u h
    simp only [List.foldl_cons]
    rcases h with ⟨e, he, hu⟩ | h
    · exact ih _ u (Or.inl (addToMonthsMap_mem_preserved m t u e he hu))
    · rcases List.mem_cons.mp h with h' | h'
      · subst h'
        exact ih _ u (Or.inl (addToMonthsMap_mem_self m u))
      · exact ih _ u (Or.inr h')

theorem monthsMap_foldl_source (ts : List Transaction) :
    ∀ m u e, e ∈ ts.foldl addToMonthsMap m → u ∈ e.2 →
      (∃ e' ∈ m, u ∈ e'.2) ∨ u ∈ ts := by
  induction ts with
  | nil => intro m u e he hu; exact Or.inl ⟨e, he, hu⟩
  | cons t ts ih =>
    intro m u e he hu
    simp only [List.foldl_cons] at he
    rcases ih _ u e he hu with ⟨e', he', hu'⟩ | h
    · rcases addToMonthsMap_mem_source m t u e' he' hu' with h' | h'
      · exact Or.inl h'
      · exact Or.inr (by simp [h'])
    · exact Or.inr (List.mem_cons_of_mem _ h)

theorem monthsMap_keys_pairwise (ts : List Transaction) :
    (monthsMap ts).Pairwise (fun a b => a.1 ≠ b.1) :=
  (monthsMap_foldl_inv ts [] (by simp) (by simp)).1

theorem monthsMap_member_key (ts : List Transaction) :
    ∀ e ∈ monthsMap ts, ∀ u ∈ e.2, monthKey u = e.1 :=
  (monthsMap_foldl_inv ts [] (by simp) (by simp)).2

/-- The grouped entries of `processMonthsData`, with membership-related
facts transported through the month sort. -/
theorem processMonthsData_key_facts (ts : List Transaction) :
    ((processMonthsData ts).Pairwise (fun a b => (a.year, a.month) ≠ (b.year, b.month))) ∧
    (∀ g ∈ processMonthsData ts, ∀ u ∈ g.transactions,
      u ∈ ts ∧ monthKey u = (g.year, g.month)) ∧
    (∀ u ∈ ts, ∃ g ∈ processMonthsData ts, u ∈ g.transactions) := by
  have hperm :
      List.Perm (processMonthsData ts)
        ((monthsMap ts).map (fun kv =>
          ⟨kv.1.1, kv.1.2, formatMonthDisplay kv.1.1 kv.1.2, kv.2⟩)) :=
    List.perm_insertionSort _ _
  refine ⟨?_, ?_, ?_⟩
  · have hmap :
        (((monthsMap ts).map (fun kv =>
            (⟨kv.1.1, kv.1.2, formatMonthDisplay kv.1.1 kv.1.2, kv.2⟩ : MonthData))).Pairwise
          (fun a b => (a.year, a.month) ≠ (b.year, b.month))) := by
      refine List.Pairwise.map _ ?_ (monthsMap_keys_pairwise ts)
      intro a b hne
      simpa using hne
    exact hperm.symm.pairwise hmap (fun h => Ne.symm h)
  · intro g hg u hu
    have hg' := hperm.mem_iff.mp hg
    rcases List.mem_map.mp hg' with ⟨kv, hkv, hEq⟩
    have hkey := monthsMap_member_key ts kv hkv u (by rw [← hEq] at hu; exact hu)
    have hsrc := monthsMap_foldl_source ts [] u kv hkv (by rw [← hEq] at hu; exact hu)
    rcases hsrc with ⟨e', he', _⟩ | h
    · exact absurd he' (List.not_mem_nil _)
    · refine ⟨h, ?_⟩
      rw [← hEq]
      simpa using hkey
  · intro u hu
    rcases monthsMap_foldl_mem ts [] u (Or.inr hu) with ⟨e, he, hue⟩
    refine ⟨⟨e.1.1, e.1.2, formatMonthDisplay e.1.1 e.1.2, e.2⟩, ?_, hue⟩
    exact hperm.mem_iff.mpr (List.mem_map.mpr ⟨e, he, rfl⟩)

/-- C3: the monthly grouping is an exhaustive, disjoint partition by the
`(year, month)` of the transaction date — every transaction of the input
lands in exactly one group, groups contain only input transactions of
their own month — and the groups are ordered most-recent-month-first
(strictly descending by year, then month). -/
theorem processMonthsData_partition (ts : List Transaction) :
    (∀ u ∈ ts, ∃ g ∈ processMonthsData ts, u ∈ g.transactions ∧
      ∀ g' ∈ processMonthsData ts, u ∈ g'.transactions → g' = g) ∧
    (∀ g ∈ processMonthsData ts, ∀ u ∈ g.transactions,
      u ∈ ts ∧ monthKey u = (g.year, g.month)) ∧
    (processMonthsData ts).Pairwise
      (fun a b => b.year < a.year ∨ (a.year = b.year ∧ b.month < a.month)) := by
  obtain ⟨hpairKeys, hmember, hexists⟩ := processMonthsData_key_facts ts
  refine ⟨?_, hmember, ?_⟩
  · intro u hu
    rcases hexists u hu with ⟨g, hg, hug⟩
    refine ⟨g, hg, hug, ?_⟩
    intro g' hg' hug'
    by_contra hne
    have hkey : monthKey u = (g.year, g.month) := (hmember g hg u hug).2
    have hkey' : monthKey u = (g'.year, g'.month) := (hmember g' hg' u hug').2
    have := hpairKeys.forall (fun a b h => Ne.symm h) hg' hg hne
    exact this (by rw [← hkey, ← hkey'])
  · have hsorted : (processMonthsData ts).Pairwise monthDescLe :=
      List.sorted_insertionSort monthDescLe _
    have := hsorted.and hpairKeys
    refine this.imp ?_
    intro a b h
    rcases h with ⟨hle, hne⟩
    rcases hle with h' | ⟨hy, hm⟩
    · exact Or.inl h'
    · refine Or.inr ⟨hy, ?_⟩
      rcases Nat.lt_or_ge b.month a.month with h'' | h''
      · exact h''
      · exfalso
        exact hne (by simp [hy]; omega)

/-- Transactions in two different months, for the witness below. -/
def txFeb : Transaction :=
  ⟨"t3", "u1", 50, ⟨2024, 2, 2⟩, "c1", "padaria da esquina", Tipo.despesa, "pix", false, none⟩

theorem processMonthsData_partition_witness :
    ∃ g ∈ processMonthsData [txIncome1000, txFeb], txIncome1000 ∈ g.transactions ∧
      ∀ g' ∈ processMonthsData [txIncome1000, txFeb],
        txIncome1000 ∈ g'.transactions → g' = g :=
  (processMonthsData_partition [txIncome1000, txFeb]).1 txIncome1000 (by decide)

/-! ## ChartView.updateLineChart: the running-balance time series -/

/-- Day ordinal of a transaction's date (`new Date(t.data).getTime()`
up to the day scale). -/
def ordOf (t : Transaction) : Nat :=
  t.data.toOrd

/-- The signed effect of a transaction on the running balance. -/
def signedValor (t : Transaction) : Rat :=
  if t.tipo = Tipo.receita then t.valor else -t.valor

/-- The chronological comparator
`(a, b) => new Date(a.data).getTime() - new Date(b.data).getTime()` of
`updateLineChart` as a relation. -/
def ordLe (a b : Transaction) : Prop :=
  ordOf a ≤ ordOf b

instance : DecidableRel ordLe := fun a b => by
  unfold ordLe; infer_instance

instance : IsTotal Transaction ordLe where
  total a b := by unfold ordLe; omega

instance : IsTrans Transaction ordLe where
  trans a b c hab hbc := by unfold ordLe at *; omega

/-- `dailyBalance.set(k, v)` on the insertion-ordered map (embedded as
an association list keyed by day ordinal). -/
def dbSet (db : List (Nat × Rat)) (k : Nat) (v : Rat) : List (Nat × Rat) :=
  match db with
  | [] => [(k, v)]
  | (k', v') :: rest => if k' = k then (k', v) :: rest else (k', v') :: dbSet rest k v

/-- `dailyBalance.has(k)`. -/
def dbHas (db : List (Nat × Rat)) (k : Nat) : Bool :=
  match db with
  | [] => false
  | (k', _) :: rest => k' == k || dbHas rest k

/-- `dailyBalance.get(k) || 0`. -/
def dbGet (db : List (Nat × Rat)) (k : Nat) : Rat :=
  match db with
  | [] => 0
  | (k', v) :: rest => if k' = k then v else dbGet rest k

/-- Walker state of `updateLineChart`: the `dailyBalance` map, the
`currentDate` cursor (as a day ordinal) and the `runningBalance`. -/
structure WalkSt where
  db : List (Nat × Rat)
  cur : Nat
  bal : Rat
deriving DecidableEq, Repr

/-- One day-iteration of either `while` loop of `updateLineChart`:
record the running balance for `currentDate` unless the day already has
a value, then advance one day. -/
def fillStep (s : WalkSt) : WalkSt :=
  ⟨if dbHas s.db s.cur then s.db else dbSet s.db s.cur s.bal, s.cur + 1, s.bal⟩

/-- `while (currentDate < transactionDate)` fill loop, with the
iteration count (one day per step) made explicit so the function
computes by structural recursion. -/
def fillBeforeAux : Nat → WalkSt → Nat → WalkSt
  | 0, s, _ => s
  | n + 1, s, target => if s.cur < target then fillBeforeAux n (fillStep s) target else s

/-- `while (currentDate < transactionDate)` fill loop. -/
def fillBefore (s : WalkSt) (target : Nat) : WalkSt :=
  fillBeforeAux (target - s.cur) s target

theorem fillBefore_eq (s : WalkSt) (target : Nat) :
    fillBefore s target = if s.cur < target then fillBefore (fillStep s) target else s := by
  unfold fillBefore
  cases hn : target - s.cur with
  | zero =>
    have h : ¬ s.cur < target := by omega
    simp [fillBeforeAux, h]
  | succ n =>
    by_cases h : s.cur < target
    · have h2 : target - (fillStep s).cur = n := by simp only [fillStep]; omega
      simp [fillBeforeAux, h, h2]
    · simp [fillBeforeAux, h]

/-- Processing of one transaction in `updateLineChart`'s main loop:
fill the gap before its date, apply its net effect, and record the new
balance on its date. -/
def applyTx (s : WalkSt) (t : Transaction) : WalkSt :=
  let s1 := fillBefore s (ordOf t)
  let newBal := if t.tipo = Tipo.receita then s1.bal + t.valor else s1.bal - t.valor
  ⟨dbSet s1.db (ordOf t) newBal, s1.cur, newBal⟩

/-- `while (currentDate <= today)` trailing fill loop, with the
iteration count made explicit so the function computes by structural
recursion. -/
def fillThroughAux : Nat → WalkSt → Nat → WalkSt
  | 0, s, _ => s
  | n + 1, s, today => if s.cur ≤ today then fillThroughAux n (fillStep s) today else s

/-- `while (currentDate <= today)` trailing fill loop. -/
def fillThrough (s : WalkSt) (today : Nat) : WalkSt :=
  fillThroughAux (today + 1 - s.cur) s today

theorem fillThrough_eq (s : WalkSt) (today : Nat) :
    fillThrough s today = if s.cur ≤ today then fillThrough (fillStep s) today else s := by
  unfold fillThrough
  cases hn : today + 1 - s.cur with
  | zero =>
    have h : ¬ s.cur ≤ today := by omega
    simp [fillThroughAux, h]
  | succ n =>
    by_cases h : s.cur ≤ today
    · have h2 : today + 1 - (fillStep s).cur = n := by simp only [fillStep]; omega
      simp [fillThroughAux, h, h2]
    · simp [fillThroughAux, h]

/-- The point budget of the chart (`const maxPoints = 30; // Máximo de
pontos no gráfico`). -/
def maxPoints : Nat :=
  30

/-- `ChartView.updateLineChart` (src/unnamed ChartView source, lines
470-574), data series only (labels are presentational): sort the
transactions chronologically, walk day by day from one day before the
first transaction through `today` carrying the running balance, then
down-sample with `step = Math.max(1, Math.floor(totalDays / maxPoints))`
and append the final day's value when `step > 1`. -/
def lineChartSeries (today : Nat) (ts : List Transaction) : List Rat :=
  match List.insertionSort ordLe ts with
  | [] => []
  | t0 :: rest =>
    let s1 := (t0 :: rest).foldl applyTx ⟨[], ordOf t0 - 1, 0⟩
    let s2 := fillThrough s1 today
    let sortedDates := List.insertionSort (fun a b => a ≤ b) (s2.db.map Prod.fst)
    let totalDays := sortedDates.length
    let step := max 1 (totalDays / maxPoints)
    let base := ((List.range totalDays).filter (fun i => i % step = 0)).map
      (fun i => dbGet s2.db (sortedDates.getD i 0))
    if 1 < step ∧ sortedDates.length > 0 then
      base ++ [dbGet s2.db ((sortedDates.getLast?).getD 0)]
    else base

theorem dbGet_dbSet_self (db : List (Nat × Rat)) (k : Nat) (v : Rat) :
    dbGet (dbSet db k v) k = v := by
  induction db with
  | nil => simp [dbSet, dbGet]
  | cons kv rest ih =>
    obtain ⟨k', v'⟩ := kv
    by_cases h : k' = k <;> simp [dbSet, dbGet, h, ih]

theorem dbHas_dbSet_self (db : List (Nat × Rat)) (k : Nat) (v : Rat) :
    dbHas (dbSet db k v) k = true := by
  induction db with
  | nil => simp [dbSet, dbHas]
  | cons kv rest ih =>
    obtain ⟨k', v'⟩ := kv
    by_cases h : k' = k <;> simp [dbSet, dbHas, h, ih]

theorem dbGet_dbSet_other (db : List (Nat × Rat)) (k k' : Nat) (v : Rat) (h : k' ≠ k) :
    dbGet (dbSet db k v) k' = dbGet db k' := by
  induction db with
  | nil => simp [dbSet, dbGet, Ne.symm h]
  | cons kv rest ih =>
    obtain ⟨k'', v''⟩ := kv
    by_cases h2 : k'' = k
    · subst h2
      simp [dbSet, dbGet, Ne.symm h]
    · by_cases h3 : k'' = k' <;> simp [dbSet, dbGet, h2, h3, h, ih]

theorem dbHas_dbSet_other (db : List (Nat × Rat)) (k k' : Nat) (v : Rat) (h : k' ≠ k) :
    dbHas (dbSet db k v) k' = dbHas db k' := by
  induction db with
  | nil => simp [dbSet, dbHas, Ne.symm h]
  | cons kv rest ih =>
    obtain ⟨k'', v''⟩ := kv
    by_cases h2 : k'' = k
    · subst h2
      simp [dbSet, dbHas, Ne.symm h]
    · simp [dbSet, dbHas, h2, ih]

theorem dbHas_mem_keys (db : List (Nat × Rat)) (k : Nat) :
    dbHas db k = true ↔ k ∈ db.map Prod.fst := by
  induction db with
  | nil => simp [dbHas]
  | cons kv rest ih =>
    obtain ⟨k', v'⟩ := kv
    by_cases h : k' = k
    · simp [dbHas, h]
    · simp [dbHas, h, Ne.symm h, ih]

theorem fillStep_bal (s : WalkSt) : (fillStep s).bal = s.bal := rfl

theorem fillStep_cur (s : WalkSt) : (fillStep s).cur = s.cur + 1 := rfl

theorem fillStep_has_source (s : WalkSt) (k : Nat)
    (h : dbHas (fillStep s).db k = true) :
    dbHas s.db k = true ∨ k = s.cur := by
  by_cases hc : dbHas s.db s.cur = true
  · simp only [fillStep, hc, if_pos] at h
    exact Or.inl h
  · simp only [fillStep, hc, if_neg, Bool.false_eq_true, not_false_iff] at h
    by_cases hk : k = s.cur
    · exact Or.inr hk
    · rw [dbHas_dbSet_other s.db s.cur k s.bal hk] at h
      exact Or.inl h

theorem fillStep_preserve (s : WalkSt) (k : Nat) (h : dbHas s.db k = true) :
    dbHas (fillStep s).db k = true ∧ dbGet (fillStep s).db k = dbGet s.db k := by
  by_cases hc : dbHas s.db s.cur = true
  · simp only [fillStep, hc, if_pos]
    exact ⟨h, by simp⟩
  · have hk : k ≠ s.cur := fun hEq => hc (hEq ▸ h)
    simp only [fillStep, hc, if_neg, Bool.false_eq_true, not_false_iff]
    rw [dbHas_dbSet_other s.db s.cur k s.bal hk, dbGet_dbSet_other s.db s.cur k s.bal hk]
    exact ⟨h, rfl⟩

/-- Recursion principle following `fillBefore`'s loop structure. -/
theorem fillBefore_induction (P : WalkSt → Nat → WalkSt → Prop)
    (hstop : ∀ s target, ¬ s.cur < target → P s target s)
    (hstep : ∀ s target, s.cur < target →
      P (fillStep s) target (fillBefore (fillStep s) target) → P s target (fillBefore s target)) :
    ∀ s target, P s target (fillBefore s target) := by
  intro s target
  generalize hn : target - s.cur = n
  induction n generalizing s with
  | zero =>
    rw [fillBefore_eq]
    have : ¬ s.cur < target := by omega
    rw [if_neg this]
    exact hstop s target this
  | succ n ih =>
    by_cases h : s.cur < target
    · exact hstep s target h (ih (fillStep s) (by simp only [fillStep]; omega))
    · rw [fillBefore_eq, if_neg h]
      exact hstop s target h

/-- Recursion principle following `fillThrough`'s loop structure. -/
theorem fillThrough_induction (P : WalkSt → Nat → WalkSt → Prop)
    (hstop : ∀ s today, ¬ s.cur ≤ today → P s today s)
    (hstep : ∀ s today, s.cur ≤ today →
      P (fillStep s) today (fillThrough (fillStep s) today) →
      P s today (fillThrough s today)) :
    ∀ s today, P s today (fillThrough s today) := by
  intro s today
  generalize hn : today + 1 - s.cur = n
  induction n generalizing s with
  | zero =>
    rw [fillThrough_eq]
    have : ¬ s.cur ≤ today := by omega
    rw [if_neg this]
    exact hstop s today this
  | succ n ih =>
    by_cases h : s.cur ≤ today
    · exact hstep s today h (ih (fillStep s) (by simp only [fillStep]; omega))
    · rw [fillThrough_eq, if_neg h]
      exact hstop s today h

theorem fillBefore_step_eq (s : WalkSt) (target : Nat) (h : s.cur < target) :
    fillBefore s target = fillBefore (fillStep s) target := by
  rw [fillBefore_eq, if_pos h]

theorem fillThrough_step_eq (s : WalkSt) (today : Nat) (h : s.cur ≤ today) :
    fillThrough s today = fillThrough (fillStep s) today := by
  rw [fillThrough_eq, if_pos h]

theorem fillBefore_bal (s : WalkSt) (target : Nat) :
    (fillBefore s target).bal = s.bal := by
  refine fillBefore_induction (fun s target r => r.bal = s.bal) ?_ ?_ s target
  · intro s target _; rfl
  · intro s target h ih
    rw [fillBefore_step_eq s target h, ih, fillStep_bal]

theorem fillBefore_cur (s : WalkSt) (target : Nat) :
    (fillBefore s target).cur = max s.cur target := by
  refine fillBefore_induction (fun s target r => r.cur = max s.cur target) ?_ ?_ s target
  · intro s target h; omega
  · intro s target h ih
    rw [fillBefore_step_eq s target h, ih, fillStep_cur]
    omega

theorem fillBefore_has_source (s : WalkSt) (target : Nat) :
    ∀ k, dbHas (fillBefore s target).db k = true →
      dbHas s.db k = true ∨ (s.cur ≤ k ∧ k < target) := by
  refine fillBefore_induction
    (fun s target r =>
      ∀ k, dbHas r.db k = true → dbHas s.db k = true ∨ (s.cur ≤ k ∧ k < target)) ?_ ?_ s target
  · intro s target _ k hk; exact Or.inl hk
  · intro s target h ih k hk
    rw [fillBefore_step_eq s target h] at hk
    rcases ih k hk with h' | h'
    · rcases fillStep_has_source s k h' with h'' | h''
      · exact Or.inl h''
      · exact Or.inr (by omega)
    · rw [fillStep_cur] at h'
      exact Or.inr (by omega)

theorem fillBefore_preserve (s : WalkSt) (target : Nat) :
    ∀ k, dbHas s.db k = true →
      dbHas (fillBefore s target).db k = true ∧
      dbGet (fillBefore s target).db k = dbGet s.db k := by
  refine fillBefore_induction
    (fun s target r =>
      ∀ k, dbHas s.db k = true → dbHas r.db k = true ∧ dbGet r.db k = dbGet s.db k) ?_ ?_ s target
  · intro s target _ k hk; exact ⟨hk, rfl⟩
  · intro s target h ih k hk
    rw [fillBefore_step_eq s target h]
    obtain ⟨h1, h2⟩ := fillStep_preserve s k hk
    obtain ⟨h3, h4⟩ := ih k h1
    exact ⟨h3, by rw [h4, h2]⟩

theorem fillThrough_bal (s : WalkSt) (today : Nat) :
    (fillThrough s today).bal = s.bal := by
  refine fillThrough_induction (fun s today r => r.bal = s.bal) ?_ ?_ s today
  · intro s today _; rfl
  · intro s today h ih
    rw [fillThrough_step_eq s today h, ih, fillStep_bal]

theorem fillThrough_has_source (s : WalkSt) (today : Nat) :
    ∀ k, dbHas (fillThrough s today).db k = true →
      dbHas s.db k = true ∨ (s.cur ≤ k ∧ k ≤ today) := by
  refine fillThrough_induction
    (fun s today r =>
      ∀ k, dbHas r.db k = true → dbHas s.db k = true ∨ (s.cur ≤ k ∧ k ≤ today)) ?_ ?_ s today
  · intro s today _ k hk; exact Or.inl hk
  · intro s today h ih k hk
    rw [fillThrough_step_eq s today h] at hk
    rcases ih k hk with h' | h'
    · rcases fillStep_has_source s k h' with h'' | h''
      · exact Or.inl h''
      · exact Or.inr (by omega)
    · rw [fillStep_cur] at h'
      exact Or.inr (by omega)

theorem fillThrough_preserve_and_today (s : WalkSt) (today : Nat) :
    (∀ k, dbHas s.db k = true →
      dbHas (fillThrough s today).db k = true ∧
      dbGet (fillThrough s today).db k = dbGet s.db k) ∧
    (s.cur ≤ today → dbHas s.db today = false →
      dbHas (fillThrough s today).db today = true ∧
      dbGet (fillThrough s today).db today = s.bal) := by
  refine fillThrough_induction
    (fun s today r =>
      (∀ k, dbHas s.db k = true → dbHas r.db k = true ∧ dbGet r.db k = dbGet s.db k) ∧
      (s.cur ≤ today → dbHas s.db today = false →
        dbHas r.db today = true ∧ dbGet r.db today = s.bal)) ?_ ?_ s today
  · intro s today hstop
    refine ⟨fun k hk => ⟨hk, rfl⟩, fun hle _ => absurd hle hstop⟩
  · intro s today h ih
    rw [fillThrough_step_eq s today h]
    obtain ⟨ihpres, ihtoday⟩ := ih
    constructor
    · intro k hk
      obtain ⟨h1, h2⟩ := fillStep_preserve s k hk
      obtain ⟨h3, h4⟩ := ihpres k h1
      exact ⟨h3, by rw [h4, h2]⟩
    · intro _ habsent
      by_cases hc : s.cur = today
      · have hcabs : dbHas s.db s.cur = false := hc ▸ habsent
        have hset : dbHas (fillStep s).db today = true := by
          simp only [fillStep, hcabs, Bool.false_eq_true, if_neg, not_false_iff]
          exact hc ▸ dbHas_dbSet_self s.db s.cur s.bal
        have hget : dbGet (fillStep s).db today = s.bal := by
          simp only [fillStep, hcabs, Bool.false_eq_true, if_neg, not_false_iff]
          exact hc ▸ dbGet_dbSet_self s.db s.cur s.bal
        obtain ⟨h3, h4⟩ := ihpres today hset
        exact ⟨h3, by rw [h4, hget]⟩
      · have hlt : s.cur < today := by omega
        have habsent' : dbHas (fillStep s).db today = false := by
          by_cases hcabs : dbHas s.db s.cur = true
          · simpa only [fillStep, hcabs, if_pos] using habsent
          · simp only [fillStep, hcabs, Bool.false_eq_true, if_neg, not_false_iff]
            rw [dbHas_dbSet_other s.db s.cur today s.bal (by omega)]
            exact habsent
        have := ihtoday (by rw [fillStep_cur]; omega) habsent'
        rw [fillStep_bal] at this
        exact this

theorem dbHas_dbSet_source (db : List (Nat × Rat)) (k k' : Nat) (v : Rat)
    (h : dbHas (dbSet db k v) k' = true) :
    k' = k ∨ dbHas db k' = true := by
  by_cases hk : k' = k
  · exact Or.inl hk
  · rw [dbHas_dbSet_other db k k' v hk] at h
    exact Or.inr h

/-- Sum of the signed transaction amounts. -/
def signedSum (ts : List Transaction) : Rat :=
  (ts.map signedValor).sum

theorem applyTx_bal (s : WalkSt) (t : Transaction) :
    (applyTx s t).bal = s.bal + signedValor t := by
  unfold applyTx signedValor
  simp only [fillBefore_bal]
  split <;> ring

theorem applyTx_cur (s : WalkSt) (t : Transaction) :
    (applyTx s t).cur = max s.cur (ordOf t) := by
  unfold applyTx
  simp only [fillBefore_cur]

theorem applyTx_db (s : WalkSt) (t : Transaction) :
    (applyTx s t).db =
      dbSet (fillBefore s (ordOf t)).db (ordOf t) ((applyTx s t).bal) := rfl

/-- Combined invariants of the transaction fold of `updateLineChart`,
for a chronologically sorted transaction list whose dates lie at or
after the cursor. -/
theorem walk_foldl (l : List Transaction) :
    ∀ s : WalkSt,
      l.Pairwise ordLe →
      (∀ t ∈ l, s.cur ≤ ordOf t) →
      (∀ k, dbHas s.db k = true → k ≤ s.cur) →
      (dbHas s.db s.cur = true → dbGet s.db s.cur = s.bal) →
      (l.foldl applyTx s).bal = s.bal + signedSum l ∧
      (∀ B, s.cur ≤ B → (∀ t ∈ l, ordOf t ≤ B) → (l.foldl applyTx s).cur ≤ B) ∧
      (∀ k, dbHas (l.foldl applyTx s).db k = true → k ≤ (l.foldl applyTx s).cur) ∧
      (dbHas (l.foldl applyTx s).db (l.foldl applyTx s).cur = true →
        dbGet (l.foldl applyTx s).db (l.foldl applyTx s).cur = (l.foldl applyTx s).bal) := by
  induction l with
  | nil =>
    intro s _ _ hInv hK
    refine ⟨by simp [signedSum], fun B hB _ => hB, hInv, hK⟩
  | cons t l ih =>
    intro s hPW hcur hInv hK
    have hPWl : l.Pairwise ordLe := (List.pairwise_cons.mp hPW).2
    have hhead : ∀ u ∈ l, ordOf t ≤ ordOf u := fun u hu => (List.pairwise_cons.mp hPW).1 u hu
    have hcur0 : s.cur ≤ ordOf t := hcur t (List.mem_cons_self _ _)
    have hcur1 : (applyTx s t).cur = ordOf t := by
      rw [applyTx_cur]; omega
    have hbal1 : (applyTx s t).bal = s.bal + signedValor t := applyTx_bal s t
    have hInv1 : ∀ k, dbHas (applyTx s t).db k = true → k ≤ (applyTx s t).cur := by
      intro k hk
      rw [hcur1]
      rw [applyTx_db] at hk
      rcases dbHas_dbSet_source _ _ _ _ hk with h' | h'
      · omega
      · rcases fillBefore_has_source s (ordOf t) k h' with h'' | h''
        · have := hInv k h''
          omega
        · omega
    have hK1 : dbHas (applyTx s t).db (applyTx s t).cur = true →
        dbGet (applyTx s t).db (applyTx s t).cur = (applyTx s t).bal := by
      intro _
      rw [hcur1, applyTx_db]
      exact dbGet_dbSet_self _ _ _
    have hcurl : ∀ u ∈ l, (applyTx s t).cur ≤ ordOf u := by
      intro u hu
      rw [hcur1]
      exact hhead u hu
    obtain ⟨ibal, icur, iInv, iK⟩ := ih (applyTx s t) hPWl hcurl hInv1 hK1
    simp only [List.foldl_cons]
    refine ⟨?_, ?_, iInv, iK⟩
    · rw [ibal, hbal1]
      simp only [signedSum, List.map_cons, List.sum_cons]
      ring
    · intro B hB hOrd
      refine icur B ?_ (fun u hu => hOrd u (List.mem_cons_of_mem _ hu))
      rw [hcur1]
      exact hOrd t (List.mem_cons_self _ _)

theorem signedSum_eq_income_sub_expenses (ts : List Transaction) :
    signedSum ts = chartTotalIncome ts - chartTotalExpenses ts := by
  rw [chartTotalIncome_eq_ite_sum, chartTotalExpenses_eq_ite_sum]
  induction ts with
  | nil => simp [signedSum]
  | cons t ts ih =>
    simp only [signedSum, List.map_cons, List.sum_cons] at ih ⊢
    rw [ih]
    cases ht : t.tipo <;> simp [signedValor, ht] <;> ring

theorem sorted_getLast_eq (l : List Nat) (x : Nat) :
    l.Pairwise (fun a b => a ≤ b) → x ∈ l → (∀ y ∈ l, y ≤ x) →
      l.getLast? = some x := by
  induction l with
  | nil => intro _ hx; cases hx
  | cons a l ih =>
    intro hPW hx hub
    match l, hx with
    | [], hx =>
      have : x = a := by simpa using hx
      simp [this]
    | b :: l', hx =>
      rw [List.getLast?_cons_cons]
      have hPW' : (b :: l').Pairwise (fun a b => a ≤ b) := (List.pairwise_cons.mp hPW).2
      have hub' : ∀ y ∈ b :: l', y ≤ x := fun y hy => hub y (List.mem_cons_of_mem _ hy)
      rcases List.mem_cons.mp hx with h' | h'
      · subst h'
        have hxb : x ≤ b := (List.pairwise_cons.mp hPW).1 b (List.mem_cons_self _ _)
        have hbx : b ≤ x := hub b (List.mem_cons_of_mem _ (List.mem_cons_self _ _))
        have : b = x := by omega
        exact ih hPW' (this ▸ List.mem_cons_self _ _) hub'
      · exact ih hPW' h' hub'

theorem getD_of_getLast? (l : List Nat) (x : Nat) :
    l.getLast? = some x → l.getD (l.length - 1) 0 = x := by
  induction l with
  | nil => intro h; cases h
  | cons a l ih =>
    intro h
    match l, h with
    | [], h =>
      have : a = x := by simpa using h
      simp [this]
    | b :: l', h =>
      rw [List.getLast?_cons_cons] at h
      have := ih h
      simpa [List.getD] using this

/-- C5: for every non-empty transaction list (sorted internally by the
chart) whose dates are not after `today`, the final point of the
running-balance series equals the true balance — total income minus
total expenses over all transactions — regardless of the down-sampling
stride. -/
theorem lineChartSeries_final_point (ts : List Transaction) (today : Nat)
    (h1 : ts ≠ []) (h2 : ∀ t ∈ ts, ordOf t ≤ today) :
    (lineChartSeries today ts).getLast? =
      some (chartTotalIncome ts - chartTotalExpenses ts) := by
  cases hs : List.insertionSort ordLe ts with
  | nil =>
    exfalso
    have := List.perm_insertionSort ordLe ts
    rw [hs] at this
    exact h1 (this.symm.eq_nil)
  | cons t0 rest =>
    have hperm := List.perm_insertionSort ordLe ts
    rw [hs] at hperm
    have hPW : (t0 :: rest).Pairwise ordLe := by
      have := List.sorted_insertionSort ordLe ts
      rw [hs] at this
      exact this
    have hmem : ∀ t ∈ t0 :: rest, t ∈ ts := fun t ht => hperm.subset ht
    have hords : ∀ t ∈ t0 :: rest, ordOf t ≤ today := fun t ht => h2 t (hmem t ht)
    have ht0 : ordOf t0 ≤ today := hords t0 (List.mem_cons_self _ _)
    set s0 : WalkSt := ⟨[], ordOf t0 - 1, 0⟩ with hs0
    have hcur : ∀ t ∈ t0 :: rest, s0.cur ≤ ordOf t := by
      intro t ht
      have : ordOf t0 ≤ ordOf t := by
        rcases List.mem_cons.mp ht with h' | h'
        · rw [h']
        · exact (List.pairwise_cons.mp hPW).1 t h'
      simp only [hs0]
      omega
    obtain ⟨wbal, wcur, wInv, wK⟩ :=
      walk_foldl (t0 :: rest) s0 hPW hcur (by intro k hk; cases hk) (by intro hk; cases hk)
    set S := (t0 :: rest).foldl applyTx s0 with hS
    have hScur : S.cur ≤ today := wcur today (by simp only [hs0]; omega) hords
    have hSbal : S.bal = signedSum (t0 :: rest) := by
      rw [wbal]; simp only [hs0]; ring
    set s2 := fillThrough S today with hs2
    have htoday : dbHas s2.db today = true ∧ dbGet s2.db today = S.bal := by
      cases hhas : dbHas S.db today with
      | false =>
        exact (fillThrough_preserve_and_today S today).2 hScur hhas
      | true =>
        have hle : today ≤ S.cur := wInv today hhas
        have hcureq : S.cur = today := by omega
        have hval : dbGet S.db today = S.bal := by
          rw [← hcureq]
          exact wK (hcureq ▸ hhas)
        obtain ⟨ha, hg⟩ := (fillThrough_preserve_and_today S today).1 today hhas
        exact ⟨ha, by rw [hg, hval]⟩
    have hkeysB : ∀ k, dbHas s2.db k = true → k ≤ today := by
      intro k hk
      rcases fillThrough_has_source S today k hk with h' | h'
      · have := wInv k h'
        omega
      · omega
    have hfinal : dbGet s2.db today = chartTotalIncome ts - chartTotalExpenses ts := by
      rw [htoday.2, hSbal, ← signedSum_eq_income_sub_expenses]
      unfold signedSum
      exact (hperm.map signedValor).sum_eq
    set sortedDates := List.insertionSort (fun a b => a ≤ b) (s2.db.map Prod.fst)
      with hsd
    have hmemD : today ∈ sortedDates := by
      rw [hsd, List.mem_insertionSort]
      exact (dbHas_mem_keys s2.db today).mp htoday.1
    have hubD : ∀ y ∈ sortedDates, y ≤ today := by
      intro y hy
      rw [hsd, List.mem_insertionSort] at hy
      exact hkeysB y ((dbHas_mem_keys s2.db y).mpr hy)
    have hPWD : sortedDates.Pairwise (fun a b => a ≤ b) := by
      rw [hsd]
      exact List.sorted_insertionSort _ _
    have hlastD : sortedDates.getLast? = some today :=
      sorted_getLast_eq sortedDates today hPWD hmemD hubD
    have hlen : sortedDates.length ≠ 0 := by
      intro h0
      rw [List.length_eq_zero] at h0
      rw [h0] at hmemD
      cases hmemD
    simp only [lineChartSeries]
    rw [hs]
    simp only [← hS, ← hs2, ← hsd]
    by_cases hcond : 1 < max 1 (sortedDates.length / maxPoints) ∧ sortedDates.length > 0
    · rw [if_pos hcond, List.getLast?_concat, hlastD]
      simp only [Option.getD_some]
      rw [hfinal]
    · rw [if_neg hcond]
      have hstep1 : max 1 (sortedDates.length / maxPoints) = 1 := by
        rcases Nat.lt_or_ge 1 (max 1 (sortedDates.length / maxPoints)) with h' | h'
        · exact absurd ⟨h', by omega⟩ hcond
        · omega
      rw [hstep1]
      have hfilter :
          (List.range sortedDates.length).filter (fun i => decide (i % 1 = 0)) =
            List.range sortedDates.length := by
        apply List.filter_eq_self.mpr
        intro i _
        simp [Nat.mod_one]
      rw [hfilter]
      obtain ⟨m, hm⟩ : ∃ m, sortedDates.length = m + 1 :=
        ⟨sortedDates.length - 1, by omega⟩
      rw [hm, List.range_succ, List.map_append]
      simp only [List.map_cons, List.map_nil]
      rw [List.getLast?_concat]
      have hgetD : sortedDates.getD m 0 = today := by
        have := getD_of_getLast? sortedDates today hlastD
        rw [hm] at this
        simpa using this
      rw [hgetD, hfinal]

/-- A lone old expense transaction used by the line-chart witnesses. -/
def txEarly : Transaction :=
  ⟨"t0", "u1", 100, ⟨1, 1, 1⟩, "c1", "compra antiga", Tipo.despesa, "dinheiro", false, none⟩

theorem lineChartSeries_final_point_witness :
    (lineChartSeries ((⟨1, 1, 5⟩ : Date).toOrd) [txEarly]).getLast? =
      some (chartTotalIncome [txEarly] - chartTotalExpenses [txEarly]) :=
  lineChartSeries_final_point [txEarly] ((⟨1, 1, 5⟩ : Date).toOrd) (by decide) (by decide)

/-- C6: with a 31-day span (`totalDays = 31`) the stride the code
computes is `Math.max(1, Math.floor(31 / 30)) = 1`, not
`ceil(31 / 30) = 2`, so the rendered series has 31 points — more than
the 30-point budget the down-sampling is supposed to enforce. -/
theorem lineChartSeries_exceeds_point_budget :
    (lineChartSeries ((⟨1, 1, 30⟩ : Date).toOrd) [txEarly]).length = 31 ∧
    maxPoints < (lineChartSeries ((⟨1, 1, 30⟩ : Date).toOrd) [txEarly]).length ∧
    max 1 (31 / maxPoints) = 1 ∧ (31 + maxPoints - 1) / maxPoints = 2 := by
  refine ⟨?_, ?_, by decide, by decide⟩ <;> decide

end Fincheck
